import Mathlib

/-!
# mfbot-server: crawl scheduler and ingestion pipeline, shallowly embedded

A shallow embedding of the core of `mfbot-server` (`src/main.rs`): the
equipment-identifier bit packing (`compress_ident`), the player recrawl
scheduler (`get_characters_to_crawl`), the HoF page scheduler
(`get_hof_pages_to_crawl`), the player-report ingestion pipeline
(`insert_player` / `report_players`) and the HoF report ingestion
(`report_hof_pages`).

Modelling conventions:
* timestamps (`chrono::NaiveDateTime`) are `Int` seconds since the epoch;
  `std::time::Duration` values added to them are the corresponding second
  counts (`minutes`, `hours`, `days` mirror the helper functions of the
  source);
* SQL tables are Lean lists of row structures; a single-statement
  `UPDATE ... WHERE ... RETURNING` is a pure function from the old table to
  the claimed rows and the new table;
* the random draws of `fastrand::u64(lo..hi)` / `fastrand::u64(lo..=hi)`
  are explicit function arguments; the range the generator guarantees
  becomes a hypothesis of the theorems that need it;
* the external compression (`zstd::stream::encode_all`) and digest
  (`md5::compute`) functions are opaque parameters of the functions that
  call them (the digest is modelled as the digest value, a `Nat`: the hex
  rendering `format!` applies to it is injective, so keying on either is
  the same);
* `i64` arithmetic that cannot overflow in the modelled domain is plain
  `Int`/`Nat` arithmetic; the one wrapping cast (`as i32` in
  `compress_ident`, applied to a value `< 2^32`) is modelled explicitly.
-/

namespace Mfbot

/-- `const fn minutes(minutes: u64) -> Duration { Duration::from_secs(60 * minutes) }`. -/
def minutes (m : Nat) : Int := 60 * m

/-- `const fn hours(hours: u64) -> Duration { Duration::from_secs(60 * 60 * hours) }`. -/
def hours (h : Nat) : Int := 60 * 60 * h

/-- `const fn days(days: u64) -> Duration { Duration::from_secs(60 * 60 * 24 * days) }`. -/
def days (d : Nat) : Int := 60 * 60 * 24 * d

/-! ## Equipment codec -/

/-- `sf_api::gamestate::unlockables::EquipmentIdent`, as consumed by
`compress_ident`: `model_id: u16`, `color: u8`, `typ: u8`, `class:
Option<Class>` (the enum value, a small natural). The field `class` is a
Lean keyword, so it is named `cls` here. -/
structure EquipmentIdent where
  model_id : Nat
  color : Nat
  typ : Nat
  cls : Option Nat
deriving DecidableEq

/-- `compress_ident` (src/main.rs:54-60): packs an `EquipmentIdent` into one
`i32`: bits 0-15 model id, 16-23 color, 24-27 type, 28-31 class+1 (0 = no
class). The `i64` accumulator is a `Nat` (all intermediate values are
non-negative), the final `as i32` cast wraps values `≥ 2^31` into the
negatives. -/
def compress_ident (ident : EquipmentIdent) : Int :=
  let res : Nat := ident.model_id
  let res := res ||| (ident.color <<< 16)
  let res := res ||| (ident.typ <<< 24)
  let res := res ||| ((match ident.cls with
    | some a => a + 1
    | none => 0) <<< 28)
  if res < 2 ^ 31 then (res : Int) else (res : Int) - 2 ^ 32

/-- The valid domain of the codec, from the spec (§4.2): model id `< 2^16`,
color `< 2^8`, type `< 2^4`, class absent or `< 2^4 - 1`. -/
def ValidIdent (i : EquipmentIdent) : Prop :=
  i.model_id < 2 ^ 16 ∧ i.color < 2 ^ 8 ∧ i.typ < 2 ^ 4 ∧ i.cls.getD 0 < 15

instance (i : EquipmentIdent) : Decidable (ValidIdent i) := by
  unfold ValidIdent
  infer_instance

/-- The inverse of `compress_ident` on the valid domain (the source defines
no decoder; the spec only requires that one exists). The `i32` is
reinterpreted as the `u32` bit pattern, then the fields are the four bit
ranges. -/
def decompress_ident (v : Int) : EquipmentIdent :=
  let n : Nat := (v % 2 ^ 32).toNat
  { model_id := n % 2 ^ 16
    color := n / 2 ^ 16 % 2 ^ 8
    typ := n / 2 ^ 24 % 2 ^ 4
    cls := if n / 2 ^ 28 = 0 then none else some (n / 2 ^ 28 - 1) }

/-- Bitwise or of two bit ranges that do not overlap is their sum. -/
theorem lor_shiftLeft_eq_add (a b k : Nat) (h : a < 2 ^ k) :
    a ||| (b <<< k) = b * 2 ^ k + a := by
  rw [Nat.shiftLeft_eq, Nat.lor_comm, Nat.mul_comm b (2 ^ k)]
  exact (Nat.mul_add_lt_is_or h b).symm

/-- On the valid domain the packed word is the sum of the shifted fields. -/
theorem compress_ident_eq_add (i : EquipmentIdent) (hv : ValidIdent i) :
    compress_ident i =
      (if ((match i.cls with
            | some a => a + 1
            | none => 0) * 2 ^ 28 +
              (i.typ * 2 ^ 24 + (i.color * 2 ^ 16 + i.model_id)) : Nat)
          < 2 ^ 31 then
        (((match i.cls with
           | some a => a + 1
           | none => 0) * 2 ^ 28 +
              (i.typ * 2 ^ 24 + (i.color * 2 ^ 16 + i.model_id)) : Nat) : Int)
      else
        (((match i.cls with
           | some a => a + 1
           | none => 0) * 2 ^ 28 +
              (i.typ * 2 ^ 24 + (i.color * 2 ^ 16 + i.model_id)) : Nat) : Int)
          - 2 ^ 32) := by
  obtain ⟨hm, hc, ht, _⟩ := hv
  have h1 := lor_shiftLeft_eq_add i.model_id i.color 16 hm
  have hcm : i.color * 2 ^ 16 + i.model_id < 2 ^ 24 := by omega
  have h2 := lor_shiftLeft_eq_add _ i.typ 24 hcm
  have htcm : i.typ * 2 ^ 24 + (i.color * 2 ^ 16 + i.model_id) < 2 ^ 28 := by omega
  have h3 := lor_shiftLeft_eq_add _ (match i.cls with
    | some a => a + 1
    | none => 0) 28 htcm
  show (let res : Nat := i.model_id
    let res := res ||| (i.color <<< 16)
    let res := res ||| (i.typ <<< 24)
    let res := res ||| ((match i.cls with
      | some a => a + 1
      | none => 0) <<< 28)
    if res < 2 ^ 31 then (res : Int) else (res : Int) - 2 ^ 32) = _
  simp only [h1, h2, h3]

/-- C6 helper: the round trip on the valid domain. -/
theorem decompress_compress (i : EquipmentIdent) (hv : ValidIdent i) :
    decompress_ident (compress_ident i) = i := by
  have key := compress_ident_eq_add i hv
  obtain ⟨hm, hc, ht, hk⟩ := hv
  have hk15 : (match i.cls with
    | some a => a + 1
    | none => 0) ≤ 15 := by
    match hcl : i.cls with
    | some c => simp only [hcl, Option.getD_some] at hk ⊢; omega
    | none => simp
  set k : Nat := (match i.cls with
    | some a => a + 1
    | none => 0) with hk_def
  set w : Nat := k * 2 ^ 28 + (i.typ * 2 ^ 24 + (i.color * 2 ^ 16 + i.model_id)) with hw_def
  have hw32 : w < 2 ^ 32 := by omega
  have hn : ((compress_ident i) % 2 ^ 32).toNat = w := by
    rw [key]
    split <;> omega
  unfold decompress_ident
  simp only [hn]
  have e1 : w % 2 ^ 16 = i.model_id := by omega
  have e2 : w / 2 ^ 16 % 2 ^ 8 = i.color := by omega
  have e3 : w / 2 ^ 24 % 2 ^ 4 = i.typ := by omega
  have e4 : w / 2 ^ 28 = k := by omega
  cases i with
  | mk m c t cl =>
    simp only [e1, e2, e3, e4, EquipmentIdent.mk.injEq, true_and]
    match hcl : cl with
    | some a =>
      simp only [hcl] at hk_def
      simp [hk_def]
    | none =>
      simp only [hcl] at hk_def
      simp [hk_def]

/-- C6: for every valid input (`modelId < 2^16`, `color < 2^8`, `type <
2^4`, class `None` or `< 15`), `compress_ident` packs the fields as bits
0-15 model id, 16-23 color, 24-27 type, 28-31 class+1 (0 = no class), and
the encoding is reversible and collision-free: `decompress_ident` inverts
it on the valid domain, hence `compress_ident` is injective there. -/
theorem compress_ident_roundtrip_injective :
    (∀ i, ValidIdent i → decompress_ident (compress_ident i) = i) ∧
    (∀ i j, ValidIdent i → ValidIdent j →
      compress_ident i = compress_ident j → i = j) := by
  refine ⟨decompress_compress, fun i j hi hj h => ?_⟩
  have := decompress_compress i hi
  rw [h, decompress_compress j hj] at this
  exact this.symm

/-- C6 witness: the codec round-trips and separates two concrete valid
idents. -/
theorem compress_ident_roundtrip_injective_witness :
    decompress_ident (compress_ident ⟨123, 45, 6, some 7⟩) = ⟨123, 45, 6, some 7⟩ ∧
    decompress_ident (compress_ident ⟨65535, 255, 15, none⟩) = ⟨65535, 255, 15, none⟩ :=
  ⟨compress_ident_roundtrip_injective.1 ⟨123, 45, 6, some 7⟩ (by decide),
   compress_ident_roundtrip_injective.1 ⟨65535, 255, 15, none⟩ (by decide)⟩

/-! ## Data model -/

/-- A row of the `player` table, with the columns `insert_player` and the
schedulers read or write. Columns the source reads as Rust `Option` (the
schema allows NULL: `level`, `attributes`, `xp`, `last_reported`,
`last_changed`, ...) are `Option`; `next_report_attempt` is `Option` too
(SQL `NULL < now` is not true, so a NULL row is never due). -/
structure PlayerRow where
  player_id : Nat
  server_id : Nat
  name : String
  level : Option Int
  attributes : Option Int
  xp : Option Int
  honor : Option Int
  equip_count : Option Int
  next_report_attempt : Option Int
  last_reported : Option Int
  last_changed : Option Int
  is_removed : Bool
deriving DecidableEq

/-- A row of the append-only `player_info` snapshot table. -/
structure PlayerInfoRow where
  player_id : Nat
  fetch_time : Int
  xp : Int
  level : Int
  soldier_advice : Option Int
  description_id : Nat
  guild_id : Option Nat
  otherplayer_resp_id : Nat
  honor : Int
deriving DecidableEq

/-- A row of the `equipment` table: the current equipped-item set. -/
structure EquipmentRow where
  server_id : Nat
  player_id : Nat
  ident : Int
deriving DecidableEq

/-- A row of the `guild` table. -/
structure GuildRow where
  guild_id : Nat
  server_id : Nat
  name : String
  is_removed : Bool
deriving DecidableEq

/-- A row of the `description` dedup table. -/
structure DescriptionRow where
  description_id : Nat
  description : String
deriving DecidableEq

/-- A row of the `otherplayer_resp` blob table: compressed payload plus the
digest of the compressed bytes it is keyed on. -/
structure BlobRow where
  otherplayer_resp_id : Nat
  otherplayer_resp : List Nat
  hash : Nat
deriving DecidableEq

/-- A row of the `todo_hof_page` lease table. -/
structure TodoHofPageRow where
  server_id : Nat
  idx : Int
  next_report_attempt : Int
deriving DecidableEq

/-- A row of the `server` table (only the columns the HoF scheduler uses). -/
structure ServerRow where
  server_id : Nat
  last_hof_crawl : Int
deriving DecidableEq

/-! ## Player recrawl scheduler (`get_characters_to_crawl`) -/

/-- The WHERE clause of the scheduler's CTE: `server_id = $1 AND
next_report_attempt < $2 AND is_removed = false`. -/
def wants_crawl (server_id : Nat) (now : Int) (p : PlayerRow) : Bool :=
  p.server_id == server_id &&
    (match p.next_report_attempt with
     | some t => decide (t < now)
     | none => false) &&
    !p.is_removed

/-- The CTE of `get_characters_to_crawl` (src/main.rs:406-413): the due rows
of the server, at most `min limit 500` of them (the handler caps
`args.limit` at 500 before binding it). -/
def players_cte (players : List PlayerRow) (server_id : Nat) (limit : Nat)
    (now : Int) : List PlayerRow :=
  (players.filter (wants_crawl server_id now)).take (min limit 500)

/-- `get_characters_to_crawl` (src/main.rs:395-428): one atomic
`UPDATE ... WHERE player_id IN (cte) RETURNING name` that claims the due
rows, pushes `next_report_attempt` to `now + minutes 30`, and returns the
claimed names. -/
def get_characters_to_crawl (players : List PlayerRow) (server_id : Nat)
    (limit : Nat) (now : Int) : List String × List PlayerRow :=
  let next_retry := now + minutes 30
  let cte := players_cte players server_id limit now
  let ids := cte.map (fun p => p.player_id)
  let updated := players.map (fun p =>
    if ids.contains p.player_id then
      { p with next_report_attempt := some next_retry }
    else p)
  (cte.map (fun p => p.name), updated)

/-- C2: every call of the player recrawl scheduler returns at most
`min limit 500` names; every returned row was due for this server
(`server_id` matches, `next_report_attempt < now`, not removed); in the
same statement each claimed row's `next_report_attempt` is set to
`now + 30 min` — a lease inside the 15-60 minute window, strictly greater
than the old value — and no claimed row is still due at `now`. -/
theorem get_characters_to_crawl_spec (players : List PlayerRow)
    (server_id : Nat) (limit : Nat) (now : Int) :
    ((get_characters_to_crawl players server_id limit now).1 =
        (players_cte players server_id limit now).map (fun p => p.name)) ∧
    ((get_characters_to_crawl players server_id limit now).1.length ≤
        min limit 500) ∧
    (∀ p ∈ players_cte players server_id limit now,
      p.server_id = server_id ∧ p.is_removed = false ∧
      ∃ old, p.next_report_attempt = some old ∧ old < now ∧
        old < now + minutes 30) ∧
    (minutes 15 ≤ minutes 30 ∧ minutes 30 ≤ minutes 60) ∧
    (∀ p ∈ players,
      ((players_cte players server_id limit now).map
          (fun q => q.player_id)).contains p.player_id →
      { p with next_report_attempt := some (now + minutes 30) } ∈
        (get_characters_to_crawl players server_id limit now).2) ∧
    (∀ q ∈ (get_characters_to_crawl players server_id limit now).2,
      ((players_cte players server_id limit now).map
          (fun r => r.player_id)).contains q.player_id →
      wants_crawl server_id now q = false) := by
  refine ⟨rfl, ?_, ?_, by decide, ?_, ?_⟩
  · show ((players_cte players server_id limit now).map (fun p => p.name)).length ≤ _
    rw [List.length_map]
    unfold players_cte
    exact List.length_take_le _ _
  · intro p hp
    have hmem : p ∈ players.filter (wants_crawl server_id now) :=
      List.mem_of_mem_take hp
    have hw : wants_crawl server_id now p = true := (List.mem_filter.mp hmem).2
    unfold wants_crawl at hw
    simp only [Bool.and_eq_true, beq_iff_eq, Bool.not_eq_true'] at hw
    obtain ⟨⟨hsid, hdue⟩, hrem⟩ := hw
    refine ⟨hsid, hrem, ?_⟩
    match hnra : p.next_report_attempt with
    | some t =>
      simp only [hnra, decide_eq_true_eq] at hdue
      exact ⟨t, rfl, hdue, by unfold minutes; omega⟩
    | none => simp [hnra] at hdue
  · intro p hp hin
    simp only [get_characters_to_crawl, List.mem_map]
    exact ⟨p, hp, if_pos hin⟩
  · intro q hq hin
    simp only [get_characters_to_crawl, List.mem_map] at hq
    obtain ⟨p, _, hpq⟩ := hq
    by_cases hc : ((players_cte players server_id limit now).map
        (fun q => q.player_id)).contains p.player_id
    · rw [if_pos hc] at hpq
      subst hpq
      unfold wants_crawl
      simp only [Bool.and_eq_false_iff]
      left
      right
      simp only [decide_eq_false_iff_not, Int.not_lt]
      unfold minutes
      omega
    · rw [if_neg hc] at hpq
      subst hpq
      exact absurd hin hc

/-- C2 witness: on a one-row table with a due player the scheduler claims
the row, returns its name, and leaves it no longer due. -/
theorem get_characters_to_crawl_spec_witness :
    ((get_characters_to_crawl
        [⟨7, 1, "alice", none, none, none, none, none, some 10, none, none, false⟩]
        1 5 100).1 = ["alice"]) ∧
    (⟨7, 1, "alice", none, none, none, none, none, some (100 + minutes 30),
        none, none, false⟩ : PlayerRow) ∈
      (get_characters_to_crawl
        [⟨7, 1, "alice", none, none, none, none, none, some 10, none, none, false⟩]
        1 5 100).2 ∧
    wants_crawl 1 100
      ⟨7, 1, "alice", none, none, none, none, none, some (100 + minutes 30),
        none, none, false⟩ = false := by
  have h := get_characters_to_crawl_spec
    [⟨7, 1, "alice", none, none, none, none, none, some 10, none, none, false⟩]
    1 5 100
  refine ⟨by decide, ?_, by decide⟩
  exact h.2.2.2.2.1
    ⟨7, 1, "alice", none, none, none, none, none, some 10, none, none, false⟩
    (by decide) (by decide)

/-! ## HoF page scheduler (`get_hof_pages_to_crawl`) -/

/-- `let total_pages = (args.player_count as f32 / 51.0) as i32`
(src/main.rs:469): a truncating float division, modelled as natural
division by 51. The model is exact only for `player_count ≤ 2^24`: there
the count is exactly representable in `f32` and rounding the quotient to
nearest cannot cross an integer boundary (that would need a quotient of at
least `2^19`, i.e. a count of at least `51 * 2^19 > 2^24`). Beyond `2^24`
the two diverge (first at 16777317 = 51 * 328967, which rounds down to
16777316 in `f32`, so the code computes 328966 where natural division
gives 328967). Every theorem about the reseed therefore carries the
hypothesis `player_count ≤ 2^24`. -/
def total_hof_pages (player_count : Nat) : Nat := player_count / 51

/-- The reseed branch of `get_hof_pages_to_crawl` (src/main.rs:459-486):
`DELETE FROM todo_hof_page WHERE server_id = $1`, then the recursive CTE
`cnt(x): 0, x+1 while x < total_pages` inserts one row per index
`0..=total_pages`. The insert names only `(server_id, idx)`;
`next_report_attempt` takes the column default, which lives in migrations
not shipped in the crate. Modelled from the spec: "all
`next_report_attempt` = epoch (immediately due)", i.e. 0. -/
def hof_reseed (todo : List TodoHofPageRow) (server_id : Nat)
    (player_count : Nat) : List TodoHofPageRow :=
  (todo.filter (fun t => t.server_id != server_id)) ++
    (List.range (total_hof_pages player_count + 1)).map
      (fun x => ⟨server_id, Int.ofNat x, 0⟩)

/-- The lease step of `get_hof_pages_to_crawl` (src/main.rs:489-510): the
handler caps `args.limit` at 100, claims up to that many due rows of the
server and pushes their `next_report_attempt` to `now + minutes 15`,
returning the claimed indices. -/
def hof_lease (todo : List TodoHofPageRow) (server_id : Nat) (limit : Nat)
    (now : Int) : List Int × List TodoHofPageRow :=
  let next_attempt_at := now + minutes 15
  let cte := (todo.filter (fun t =>
    t.server_id == server_id && decide (t.next_report_attempt < now))).take
      (min limit 100)
  let idxs := cte.map (fun t => t.idx)
  let updated := todo.map (fun t =>
    if t.server_id == server_id && idxs.contains t.idx then
      { t with next_report_attempt := next_attempt_at }
    else t)
  (idxs, updated)

/-- `get_hof_pages_to_crawl` (src/main.rs:430-513): the conditional
`UPDATE server SET last_hof_crawl = $3 WHERE server_id = $1 AND
last_hof_crawl < $2 RETURNING server_id` (the reseed-race mutex; the caller
won iff a row came back), the reseed when won, then the lease step. -/
def get_hof_pages_to_crawl (servers : List ServerRow)
    (todo : List TodoHofPageRow) (server_id : Nat) (player_count : Nat)
    (limit : Nat) (now : Int) :
    List Int × List ServerRow × List TodoHofPageRow :=
  let latest_accepted_crawling_start := now - days 3
  let won := servers.any (fun s => s.server_id == server_id &&
    decide (s.last_hof_crawl < latest_accepted_crawling_start))
  let servers' := servers.map (fun s =>
    if s.server_id == server_id &&
        decide (s.last_hof_crawl < latest_accepted_crawling_start) then
      { s with last_hof_crawl := now }
    else s)
  let todo1 := if won then hof_reseed todo server_id player_count else todo
  let leased := hof_lease todo1 server_id limit now
  (leased.1, servers', leased.2)

/-- C3 counterexample: a server whose `last_hof_crawl` is 4 days old and a
player count of 204 (an exact multiple of the page size 51, and far inside
the range where the float model is exact: `204 / 51.0 = 4.0` in `f32`).
The regenerated page list is `[0, 1, 2, 3, 4]` — five pages — while
`ceil(204 / 51) = 4`: the code emits one page more than the claim states. -/
theorem get_hof_pages_to_crawl_ceil_counterexample :
    ((get_hof_pages_to_crawl [⟨1, 54400⟩] [] 1 204 0 400000).2.2.map
        (fun t => t.idx) = [0, 1, 2, 3, 4]) ∧
    (get_hof_pages_to_crawl [⟨1, 54400⟩] [] 1 204 0 400000).2.2.length = 5 ∧
    (204 + 51 - 1) / 51 = 4 := by
  refine ⟨by decide, by decide, by decide⟩

/-- C3 (amended): when `get_crawl_hof_pages` is called for a server whose
`last_hof_crawl` is older than the 3-day TTL, the caller that wins the
conditional update (which sets `last_hof_crawl` to `now`) deletes all
existing `TodoHofPage` rows for that server and inserts exactly one row
per page index from 0 to `floor(player_count / 51)` — i.e.
`floor(player_count / 51) + 1` rows, one more than `ceil(player_count /
51)` whenever 51 divides `player_count` — all immediately due. Stated for
`player_count ≤ 2^24`, the range on which the natural-division model of
the source's `f32` page count is exact (see `total_hof_pages`). -/
theorem get_hof_pages_to_crawl_reseed (servers : List ServerRow)
    (todo : List TodoHofPageRow) (server_id : Nat) (player_count : Nat)
    (limit : Nat) (now : Int) (s : ServerRow)
    (hs : s ∈ servers) (hsid : s.server_id = server_id)
    (hold : s.last_hof_crawl < now - days 3)
    (hpc : player_count ≤ 2 ^ 24) :
    (((hof_reseed todo server_id player_count).filter
        (fun t => t.server_id == server_id)).map (fun t => t.idx) =
      (List.range (player_count / 51 + 1)).map (fun x => Int.ofNat x)) ∧
    ((hof_reseed todo server_id player_count).filter
        (fun t => t.server_id == server_id)).length =
      player_count / 51 + 1 ∧
    (∀ t ∈ hof_reseed todo server_id player_count,
      t.server_id = server_id → t.next_report_attempt = 0) ∧
    ((get_hof_pages_to_crawl servers todo server_id player_count limit
        now).2.2 =
      (hof_lease (hof_reseed todo server_id player_count) server_id limit
        now).2) ∧
    { s with last_hof_crawl := now } ∈
      (get_hof_pages_to_crawl servers todo server_id player_count limit
        now).2.1 := by
  clear hpc
  have hcond : (s.server_id == server_id &&
      decide (s.last_hof_crawl < now - days 3)) = true := by
    simp [hsid, hold]
  have hwon : servers.any (fun s => s.server_id == server_id &&
      decide (s.last_hof_crawl < now - days 3)) = true :=
    List.any_eq_true.mpr ⟨s, hs, hcond⟩
  have hfilter : (hof_reseed todo server_id player_count).filter
      (fun t => t.server_id == server_id) =
      (List.range (total_hof_pages player_count + 1)).map
        (fun x => ⟨server_id, Int.ofNat x, 0⟩) := by
    unfold hof_reseed
    rw [List.filter_append]
    have h1 : (todo.filter (fun t => t.server_id != server_id)).filter
        (fun t => t.server_id == server_id) = [] := by
      rw [List.filter_filter]
      apply List.filter_eq_nil_iff.mpr
      intro t _
      cases h : t.server_id == server_id <;> simp [bne, h]
    have h2 : ((List.range (total_hof_pages player_count + 1)).map
        (fun x => (⟨server_id, Int.ofNat x, 0⟩ : TodoHofPageRow))).filter
        (fun t => t.server_id == server_id) =
        (List.range (total_hof_pages player_count + 1)).map
          (fun x => ⟨server_id, Int.ofNat x, 0⟩) := by
      apply List.filter_eq_self.mpr
      intro t ht
      obtain ⟨x, _, rfl⟩ := List.mem_map.mp ht
      simp
    rw [h1, h2, List.nil_append]
  refine ⟨?_, ?_, ?_, ?_, ?_⟩
  · rw [hfilter, List.map_map]
    rfl
  · rw [hfilter, List.length_map, List.length_range]
    rfl
  · intro t ht hts
    unfold hof_reseed at ht
    rcases List.mem_append.mp ht with h | h
    · have := (List.mem_filter.mp h).2
      simp only [bne_iff_ne, ne_eq] at this
      exact absurd hts this
    · obtain ⟨x, _, rfl⟩ := List.mem_map.mp h
      rfl
  · show (hof_lease (if (servers.any _) = true then _ else _) _ _ _).2 = _
    rw [hwon]
    rfl
  · show _ ∈ servers.map _
    refine List.mem_map.mpr ⟨s, hs, ?_⟩
    exact if_pos hcond

/-- C3 witness: a concrete server 4 days stale, 204 players, limit 0: the
reseeded list is pages 0-4 for the server, all due at the epoch, and the
server row is stamped with `now`. -/
theorem get_hof_pages_to_crawl_reseed_witness :
    (((hof_reseed [] 1 204).filter (fun t => t.server_id == 1)).map
        (fun t => t.idx) = (List.range (204 / 51 + 1)).map (fun x => Int.ofNat x)) ∧
    ((hof_reseed [] 1 204).filter (fun t => t.server_id == 1)).length =
      204 / 51 + 1 ∧
    (⟨1, 400000⟩ : ServerRow) ∈
      (get_hof_pages_to_crawl [⟨1, 54400⟩] [] 1 204 0 400000).2.1 := by
  have h := get_hof_pages_to_crawl_reseed [⟨1, 54400⟩] [] 1 204 0 400000
    ⟨1, 54400⟩ (by decide) rfl (by decide) (by decide)
  exact ⟨h.1, h.2.1, h.2.2.2.2⟩

/-- C9: the HoF page scheduler returns at most `min limit 100` page
indices per call — the handler caps the requested limit at 100 before
binding it to the lease statement's `LIMIT`. -/
theorem get_hof_pages_to_crawl_limit_cap (servers : List ServerRow)
    (todo : List TodoHofPageRow) (server_id : Nat) (player_count : Nat)
    (limit : Nat) (now : Int) :
    (get_hof_pages_to_crawl servers todo server_id player_count limit
      now).1.length ≤ min limit 100 := by
  show ((hof_lease _ server_id limit now).1).length ≤ _
  unfold hof_lease
  simp only [List.length_map]
  exact List.length_take_le _ _

/-! ## Ingestion pipeline (`insert_player`) -/

/-- `Option::is_none_or` of Rust: true when the option is `none` or the
value satisfies the predicate. -/
def is_none_or (o : Option α) (p : α → Bool) : Bool :=
  match o with
  | none => true
  | some a => p a

/-- `Option::is_some_and` of Rust. -/
def is_some_and (o : Option α) (p : α → Bool) : Bool :=
  match o with
  | none => false
  | some a => p a

/-- A player report after the external parsing steps (`RawOtherPlayer`
run through `OtherPlayer::parse` of `sf_api`, which is outside this
repository): the values `insert_player` derives before it touches the
store. `server_id` is already resolved (the resolver lives in the `db`
module's Postgres variant, outside the claims), `attributes` is the summed
base+bonus attributes, `equip_idents` the compressed idents of the real
item slots (`model_id < 100`) before the sort/dedup that `insert_player`
itself performs, `info` the raw payload bytes. -/
structure Report where
  server_id : Nat
  name : String
  level : Int
  experience : Int
  honor : Int
  attributes : Int
  equip_count : Int
  equip_idents : List Int
  guild : Option String
  description : Option String
  soldier_advice : Option Int
  fetch_time : Int
  info : List Nat
deriving DecidableEq

/-- The whole store of the ingestion pipeline, with the id sequences of the
serial columns. -/
structure Db where
  players : List PlayerRow
  next_player_id : Nat
  guilds : List GuildRow
  next_guild_id : Nat
  descriptions : List DescriptionRow
  next_description_id : Nat
  blobs : List BlobRow
  next_blob_id : Nat
  player_infos : List PlayerInfoRow
  equipment : List EquipmentRow
deriving DecidableEq

/-- `equip_idents.sort(); equip_idents.dedup();` (src/main.rs:169-170):
sort, then drop adjacent duplicates. -/
def dedup_sorted (l : List Int) : List Int :=
  (l.insertionSort (· ≤ ·)).destutter (· ≠ ·)

/-- The change detection of `insert_player` (src/main.rs:199-201): any of
attributes, xp, level differs from the stored row; a NULL stored value
counts as changed. -/
def has_changed_check (existing : PlayerRow) (attributes experience : Int)
    (level : Int) : Bool :=
  is_none_or existing.attributes (fun a => a != attributes) ||
  is_none_or existing.xp (fun a => a != experience) ||
  is_none_or existing.level (fun a => a != level)

/-- The adaptive backoff of `insert_player` (src/main.rs:203-228). The
draws of `fastrand::u64` are the arguments `rd` (days), `rh` (hours), `rm`
(minutes); each branch of the source draws at most one of each. -/
def next_attempt_backoff (has_changed : Bool) (last_changed : Option Int)
    (fetch_time : Int) (rd rh rm : Nat) : Int :=
  if has_changed then
    fetch_time + hours rh + minutes rm
  else
    match last_changed with
    | some x =>
      if x + days 3 > fetch_time then
        fetch_time + days 1 + hours rh + minutes rm
      else if x + days 7 > fetch_time then
        fetch_time + days rd + hours rh + minutes rm
      else
        fetch_time + days rd + hours rh + minutes rm
    | none => fetch_time + days rd + hours rh + minutes rm

/-- The guild upsert (src/main.rs:283-293): `INSERT INTO guild ... ON
CONFLICT(server_id, name) DO UPDATE SET is_removed = FALSE RETURNING
guild_id`. -/
def upsert_guild (guilds : List GuildRow) (next_id : Nat) (server_id : Nat)
    (name : String) : Nat × List GuildRow × Nat :=
  match guilds.find? (fun g => g.server_id == server_id && g.name == name) with
  | some g =>
    (g.guild_id,
     guilds.map (fun x =>
       if x.server_id == server_id && x.name == name then
         { x with is_removed := false }
       else x),
     next_id)
  | none => (next_id, guilds ++ [⟨next_id, server_id, name, false⟩], next_id + 1)

/-- The description upsert (src/main.rs:298-306): `INSERT INTO description
... ON CONFLICT(description) DO UPDATE SET description_id =
description.description_id RETURNING description_id` — a no-op touch that
returns the existing id. -/
def upsert_description (descs : List DescriptionRow) (next_id : Nat)
    (description : String) : Nat × List DescriptionRow × Nat :=
  match descs.find? (fun d => d.description == description) with
  | some d => (d.description_id, descs, next_id)
  | none => (next_id, descs ++ [⟨next_id, description⟩], next_id + 1)

/-- The blob upsert (src/main.rs:316-326): keyed on the digest of the
compressed bytes, `ON CONFLICT(hash) DO UPDATE SET <no-op> RETURNING
otherplayer_resp_id`. -/
def upsert_blob (blobs : List BlobRow) (next_id : Nat) (resp : List Nat)
    (hash : Nat) : Nat × List BlobRow × Nat :=
  match blobs.find? (fun b => b.hash == hash) with
  | some b => (b.otherplayer_resp_id, blobs, next_id)
  | none => (next_id, blobs ++ [⟨next_id, resp, hash⟩], next_id + 1)

/-- The blob store (src/main.rs:308-326): compress the raw payload with
`zstd` (level 3), digest the compressed bytes with `md5`, upsert keyed on
the digest. `compress` and `md5` are the external functions, passed in. -/
def store_blob (compress : List Nat → List Nat) (md5 : List Nat → Nat)
    (blobs : List BlobRow) (next_id : Nat) (raw : List Nat) :
    Nat × List BlobRow × Nat :=
  let resp := compress raw
  let hash := md5 resp
  upsert_blob blobs next_id resp hash

/-- The tail of `insert_player`'s transaction (src/main.rs:280-361), after
the player row has been updated or inserted and its id `pid` is known:
guild upsert (when a guild is reported), description upsert, blob store,
the `player_info` snapshot insert, and the equipment delete-and-reinsert
from the deduplicated ident list. -/
def insert_player_tail (db : Db) (pid : Nat) (player : Report)
    (fetch_time : Int) (equip_idents : List Int)
    (compress : List Nat → List Nat) (md5 : List Nat → Nat) : Db :=
  let guild_step : Option Nat × List GuildRow × Nat :=
    match player.guild with
    | some guild_name =>
      let r := upsert_guild db.guilds db.next_guild_id player.server_id
        guild_name
      (some r.1, r.2.1, r.2.2)
    | none => (none, db.guilds, db.next_guild_id)
  let description := player.description.getD ""
  let desc_step := upsert_description db.descriptions db.next_description_id
    description
  let blob_step := store_blob compress md5 db.blobs db.next_blob_id
    player.info
  let info_row : PlayerInfoRow :=
    ⟨pid, fetch_time, player.experience, player.level, player.soldier_advice,
     desc_step.1, guild_step.1, blob_step.1, player.honor⟩
  { db with
    guilds := guild_step.2.1
    next_guild_id := guild_step.2.2
    descriptions := desc_step.2.1
    next_description_id := desc_step.2.2
    blobs := blob_step.2.1
    next_blob_id := blob_step.2.2
    player_infos := db.player_infos ++ [info_row]
    equipment := (db.equipment.filter (fun e => e.player_id != pid)) ++
      equip_idents.map (fun ident => ⟨player.server_id, pid, ident⟩) }

/-- The terminal outcome of one report's ingestion in the model (parse
failures happen before any store access and are outside the embedding). -/
inductive IngestOutcome
  | accepted
  | discarded
deriving DecidableEq

/-- The clock-skew clamp (src/main.rs:152-155): `if fetch_time > now {
fetch_time = now }`. -/
def clamp_fetch_time (fetch_time now : Int) : Int :=
  if fetch_time > now then now else fetch_time

/-- The row produced by the `UPDATE player SET ...` of an accepted report of
an existing player (src/main.rs:236-253), applied to the stored row `p`:
the source's let-bound `has_changed`, `next_attempt` and `last_changed` are
inlined (`fetch_time` is already clamped here). -/
def updated_player_row (p : PlayerRow) (existing : PlayerRow)
    (player : Report) (fetch_time : Int) (rd rh rm : Nat) : PlayerRow :=
  { p with
    level := some player.level
    attributes := some player.attributes
    next_report_attempt := some (next_attempt_backoff
      (has_changed_check existing player.attributes player.experience
        player.level) existing.last_changed fetch_time rd rh rm)
    last_reported := some fetch_time
    last_changed := some ((existing.last_changed.filter
      (fun _ => !has_changed_check existing player.attributes
        player.experience player.level)).getD fetch_time)
    equip_count := some player.equip_count
    xp := some player.experience
    honor := some player.honor }

/-- The existing-player branch of `insert_player` (src/main.rs:194-254):
discard if `last_reported >= fetch_time`, otherwise update the row and run
the transaction tail. -/
def insert_player_existing (db : Db) (player : Report) (now : Int)
    (compress : List Nat → List Nat) (md5 : List Nat → Nat)
    (rd rh rm : Nat) (existing : PlayerRow) : IngestOutcome × Db :=
  if is_some_and existing.last_reported (fun a =>
      decide (a ≥ clamp_fetch_time player.fetch_time now)) then
    (IngestOutcome.discarded, db)
  else
    (IngestOutcome.accepted,
     insert_player_tail
       { db with players := db.players.map (fun p =>
           if p.player_id == existing.player_id then
             updated_player_row p existing player
               (clamp_fetch_time player.fetch_time now) rd rh rm
           else p) }
       existing.player_id player (clamp_fetch_time player.fetch_time now)
       (dedup_sorted player.equip_idents) compress md5)

/-- The new-player branch of `insert_player` (src/main.rs:255-278): insert
a row due in one day, then run the transaction tail. -/
def insert_player_new (db : Db) (player : Report) (now : Int)
    (compress : List Nat → List Nat) (md5 : List Nat → Nat) :
    IngestOutcome × Db :=
  (IngestOutcome.accepted,
   insert_player_tail
     { db with
       players := db.players ++
         [⟨db.next_player_id, player.server_id, player.name,
           some player.level, some player.attributes, some player.experience,
           some player.honor, some player.equip_count,
           some (clamp_fetch_time player.fetch_time now + days 1),
           some (clamp_fetch_time player.fetch_time now),
           some (clamp_fetch_time player.fetch_time now), false⟩]
       next_player_id := db.next_player_id + 1 }
     db.next_player_id player (clamp_fetch_time player.fetch_time now)
     (dedup_sorted player.equip_idents) compress md5)

/-- `insert_player` (src/main.rs:126-362) from the store lookup on: clamp a
future `fetch_time` to `now`, look up the `player` row by (server_id,
name), and dispatch to the update or insert branch. -/
def insert_player (db : Db) (player : Report) (now : Int)
    (compress : List Nat → List Nat) (md5 : List Nat → Nat)
    (rd rh rm : Nat) : IngestOutcome × Db :=
  match db.players.find? (fun p =>
    p.server_id == player.server_id && p.name == player.name) with
  | some existing =>
    insert_player_existing db player now compress md5 rd rh rm existing
  | none => insert_player_new db player now compress md5

/-- Unfolding `insert_player` when the player row is found. -/
theorem insert_player_eq_of_find_some (db : Db) (player : Report)
    (now : Int) (compress : List Nat → List Nat) (md5 : List Nat → Nat)
    (rd rh rm : Nat) (existing : PlayerRow)
    (hfind : db.players.find? (fun p =>
      p.server_id == player.server_id && p.name == player.name) =
        some existing) :
    insert_player db player now compress md5 rd rh rm =
      insert_player_existing db player now compress md5 rd rh rm existing := by
  unfold insert_player
  rw [hfind]

/-- Unfolding `insert_player` when no player row is found. -/
theorem insert_player_eq_of_find_none (db : Db) (player : Report)
    (now : Int) (compress : List Nat → List Nat) (md5 : List Nat → Nat)
    (rd rh rm : Nat)
    (hfind : db.players.find? (fun p =>
      p.server_id == player.server_id && p.name == player.name) = none) :
    insert_player db player now compress md5 rd rh rm =
      insert_player_new db player now compress md5 := by
  unfold insert_player
  rw [hfind]

/-- `report_players` (src/main.rs:114-124): ingest a batch one report at a
time; a discarded or failed report does not stop the rest (the handler
only logs it). -/
def report_players (db : Db) (reports : List Report) (now : Int)
    (compress : List Nat → List Nat) (md5 : List Nat → Nat)
    (rd rh rm : Nat) : Db :=
  match reports with
  | [] => db
  | r :: rest =>
    report_players (insert_player db r now compress md5 rd rh rm).2 rest now
      compress md5 rd rh rm

/-- The `players` table is untouched by the transaction tail. -/
theorem insert_player_tail_players (db : Db) (pid : Nat) (player : Report)
    (fetch_time : Int) (equip_idents : List Int)
    (compress : List Nat → List Nat) (md5 : List Nat → Nat) :
    (insert_player_tail db pid player fetch_time equip_idents compress
      md5).players = db.players := rfl

/-! ### Fixtures used by the concrete witnesses -/

/-- A stored player row: id 7 on server 1, `last_reported = 50`,
`last_changed = 40`. -/
def sampleRow : PlayerRow :=
  ⟨7, 1, "alice", some 5, some 100, some 200, some 9, some 2, some 10,
   some 50, some 40, false⟩

/-- A one-player store. -/
def sampleDb : Db := ⟨[sampleRow], 8, [], 1, [], 1, [], 1, [], [⟨1, 7, 42⟩]⟩

/-- A report for the stored player with `fetch_time = 50`, exactly the
stored `last_reported`. -/
def staleReport : Report :=
  ⟨1, "alice", 6, 250, 9, 120, 2, [3, 1, 3], none, none, none, 50, [1, 2]⟩

/-- A report for the stored player with `fetch_time = 60`, newer than the
stored `last_reported = 50` and newer than `last_changed + 3 days`. -/
def freshReport : Report :=
  ⟨1, "alice", 6, 250, 9, 120, 2, [3, 1, 3], none, none, none, 60, [1, 2]⟩

/-- C4: a report for an existing player whose `fetch_time` is not strictly
newer than the stored `last_reported` is discarded with no mutation to any
table (`insert_player` returns the store unchanged), and the rest of the
batch is still ingested. -/
theorem insert_player_stale_discard (db : Db) (player : Report) (now : Int)
    (compress : List Nat → List Nat) (md5 : List Nat → Nat) (rd rh rm : Nat)
    (rest : List Report) (existing : PlayerRow) (lr : Int)
    (hfind : db.players.find? (fun p =>
      p.server_id == player.server_id && p.name == player.name) =
        some existing)
    (hlr : existing.last_reported = some lr)
    (hstale : player.fetch_time ≤ lr) :
    insert_player db player now compress md5 rd rh rm =
      (IngestOutcome.discarded, db) ∧
    report_players db (player :: rest) now compress md5 rd rh rm =
      report_players db rest now compress md5 rd rh rm := by
  have hdisc : insert_player db player now compress md5 rd rh rm =
      (IngestOutcome.discarded, db) := by
    rw [insert_player_eq_of_find_some db player now compress md5 rd rh rm
      existing hfind]
    have hcond : is_some_and existing.last_reported (fun a =>
        decide (a ≥ clamp_fetch_time player.fetch_time now)) = true := by
      rw [hlr]
      unfold is_some_and clamp_fetch_time
      simp only [decide_eq_true_eq, ge_iff_le]
      split <;> omega
    unfold insert_player_existing
    rw [if_pos hcond]
  refine ⟨hdisc, ?_⟩
  show report_players (insert_player db player now compress md5 rd rh rm).2
      rest now compress md5 rd rh rm = _
  rw [hdisc]

/-- C4 witness: the boundary case `fetch_time = last_reported` on a
concrete store is discarded and the store is unchanged. -/
theorem insert_player_stale_discard_witness :
    insert_player sampleDb staleReport 1000 (fun b => b) (fun _ => 0)
      0 0 0 = (IngestOutcome.discarded, sampleDb) ∧
    report_players sampleDb [staleReport, freshReport] 1000 (fun b => b)
        (fun _ => 0) 0 0 0 =
      report_players sampleDb [freshReport] 1000 (fun b => b)
        (fun _ => 0) 0 0 0 :=
  insert_player_stale_discard sampleDb staleReport 1000 (fun b => b)
    (fun _ => 0) 0 0 0 [freshReport] sampleRow 50 (by decide) (by decide)
    (by decide)

/-- C5: for every accepted report of an existing player — `has_changed`
being "any of attributes, xp, level differ from the stored row, a NULL
stored value counting as changed" (`has_changed_check`) — the row is
updated with `next_report_attempt = next_attempt_backoff ...`, and the
backoff is the claimed formula: if changed, `fetch_time + rh hours + rm
minutes` with `rh` drawn from 11..14 and `rm` from 0..59 (so inside
`[fetch_time+11h, fetch_time+13h59m]`); otherwise tiered by `last_changed`
against `fetch_time`: within 3 days `fetch_time + 1d + rh h + rm m`
(`rh` from 0..12), within 7 days `fetch_time + rd d + rh h + rm m`
(`rd` from 2..=4, `rh` from 0..23), older `fetch_time + rd d + rh h + rm m`
(`rd` from 10..=14, `rh` from 0..=23). -/
theorem insert_player_adaptive_backoff (db : Db) (player : Report)
    (now : Int) (compress : List Nat → List Nat) (md5 : List Nat → Nat)
    (rd rh rm : Nat) (existing : PlayerRow)
    (hfind : db.players.find? (fun p =>
      p.server_id == player.server_id && p.name == player.name) =
        some existing)
    (hfresh : is_some_and existing.last_reported
      (fun a => decide (a ≥ player.fetch_time)) = false)
    (hnow : player.fetch_time ≤ now) :
    ((insert_player db player now compress md5 rd rh rm).1 =
      IngestOutcome.accepted) ∧
    ({ existing with
        level := some player.level
        attributes := some player.attributes
        next_report_attempt := some (next_attempt_backoff
          (has_changed_check existing player.attributes player.experience
            player.level) existing.last_changed player.fetch_time rd rh rm)
        last_reported := some player.fetch_time
        last_changed := some ((existing.last_changed.filter
          (fun _ => !has_changed_check existing player.attributes
            player.experience player.level)).getD player.fetch_time)
        equip_count := some player.equip_count
        xp := some player.experience
        honor := some player.honor } ∈
      (insert_player db player now compress md5 rd rh rm).2.players) ∧
    (∀ lc : Option Int,
      next_attempt_backoff true lc player.fetch_time rd rh rm =
        player.fetch_time + hours rh + minutes rm) ∧
    (∀ x : Int,
      (x + days 3 > player.fetch_time →
        next_attempt_backoff false (some x) player.fetch_time rd rh rm =
          player.fetch_time + days 1 + hours rh + minutes rm) ∧
      (¬ x + days 3 > player.fetch_time → x + days 7 > player.fetch_time →
        next_attempt_backoff false (some x) player.fetch_time rd rh rm =
          player.fetch_time + days rd + hours rh + minutes rm) ∧
      (¬ x + days 7 > player.fetch_time →
        next_attempt_backoff false (some x) player.fetch_time rd rh rm =
          player.fetch_time + days rd + hours rh + minutes rm)) ∧
    (11 ≤ rh → rh < 14 → rm ≤ 59 →
      player.fetch_time + hours 11 ≤
        next_attempt_backoff true existing.last_changed player.fetch_time
          rd rh rm ∧
      next_attempt_backoff true existing.last_changed player.fetch_time
          rd rh rm ≤ player.fetch_time + hours 13 + minutes 59) := by
  have hclamp : clamp_fetch_time player.fetch_time now = player.fetch_time := by
    unfold clamp_fetch_time
    split <;> omega
  have hne : ¬ (is_some_and existing.last_reported (fun a =>
      decide (a ≥ clamp_fetch_time player.fetch_time now)) = true) := by
    rw [hclamp, hfresh]
    exact Bool.false_ne_true
  refine ⟨?_, ?_, ?_, ?_, ?_⟩
  · rw [insert_player_eq_of_find_some db player now compress md5 rd rh rm
      existing hfind]
    unfold insert_player_existing
    rw [if_neg hne]
  · rw [insert_player_eq_of_find_some db player now compress md5 rd rh rm
      existing hfind]
    unfold insert_player_existing
    rw [if_neg hne]
    show _ ∈ (insert_player_tail _ _ _ _ _ _ _).players
    rw [insert_player_tail_players]
    show _ ∈ db.players.map _
    refine List.mem_map.mpr ⟨existing, List.mem_of_find?_eq_some hfind, ?_⟩
    rw [if_pos (beq_self_eq_true existing.player_id)]
    unfold updated_player_row
    rw [hclamp]
  · intro lc
    unfold next_attempt_backoff
    rw [if_pos rfl]
  · intro x
    refine ⟨?_, ?_, ?_⟩
    · intro h3
      unfold next_attempt_backoff
      simp only [Bool.false_eq_true, if_false]
      rw [if_pos h3]
    · intro h3 h7
      unfold next_attempt_backoff
      simp only [Bool.false_eq_true, if_false]
      rw [if_neg h3, if_pos h7]
    · intro h7
      have h3 : ¬ x + days 3 > player.fetch_time := by
        unfold days at h7 ⊢
        omega
      unfold next_attempt_backoff
      simp only [Bool.false_eq_true, if_false]
      rw [if_neg h3, if_neg h7]
  · intro h11 h14 h59
    unfold next_attempt_backoff
    rw [if_pos rfl]
    unfold hours minutes
    omega

/-- C5 witness: a concrete accepted report of the stored player (changed
attributes), with draws `rh = 12`, `rm = 30`: the updated row carries the
short-recheck backoff `fetch_time + 12h + 30m`. -/
theorem insert_player_adaptive_backoff_witness :
    ((insert_player sampleDb freshReport 1000 (fun b => b) (fun _ => 0)
      0 12 30).1 = IngestOutcome.accepted) ∧
    ({ sampleRow with
        level := some 6
        attributes := some 120
        next_report_attempt := some (next_attempt_backoff true (some 40) 60
          0 12 30)
        last_reported := some 60
        last_changed := some 60
        equip_count := some 2
        xp := some 250
        honor := some 9 } ∈
      (insert_player sampleDb freshReport 1000 (fun b => b) (fun _ => 0)
        0 12 30).2.players) ∧
    next_attempt_backoff true (some 40) 60 0 12 30 = 60 + hours 12 + minutes 30 := by
  have h := insert_player_adaptive_backoff sampleDb freshReport 1000
    (fun b => b) (fun _ => 0) 0 12 30 sampleRow (by decide) (by decide)
    (by decide)
  exact ⟨h.1, h.2.1, h.2.2.1 (some 40)⟩

/-- What the transaction tail does to `player_info` and `equipment`: it
appends exactly one snapshot row for `pid` (with the ids the upserts
returned) and replaces `pid`'s equipment rows by the given ident list,
leaving other players' equipment untouched. -/
theorem insert_player_tail_spec (db : Db) (pid : Nat) (player : Report)
    (ft : Int) (ei : List Int) (compress : List Nat → List Nat)
    (md5 : List Nat → Nat) :
    ((insert_player_tail db pid player ft ei compress md5).equipment.filter
        (fun e => e.player_id == pid) =
      ei.map (fun i => ⟨player.server_id, pid, i⟩)) ∧
    ((insert_player_tail db pid player ft ei compress md5).equipment.filter
        (fun e => e.player_id != pid) =
      db.equipment.filter (fun e => e.player_id != pid)) ∧
    ∃ desc_id guild_id resp_id,
      (insert_player_tail db pid player ft ei compress md5).player_infos =
        db.player_infos ++
          [⟨pid, ft, player.experience, player.level, player.soldier_advice,
            desc_id, guild_id, resp_id, player.honor⟩] := by
  refine ⟨?_, ?_, ?_⟩
  · show ((db.equipment.filter (fun e : EquipmentRow => e.player_id != pid)) ++
      ei.map (fun i => (⟨player.server_id, pid, i⟩ : EquipmentRow))).filter
        (fun e : EquipmentRow => e.player_id == pid) = _
    rw [List.filter_append]
    have h1 : (db.equipment.filter (fun e => e.player_id != pid)).filter
        (fun e => e.player_id == pid) = [] := by
      rw [List.filter_filter]
      apply List.filter_eq_nil_iff.mpr
      intro t _
      cases h : t.player_id == pid <;> simp [bne, h]
    have h2 : (ei.map (fun i =>
        (⟨player.server_id, pid, i⟩ : EquipmentRow))).filter
        (fun e => e.player_id == pid) = ei.map (fun i =>
          ⟨player.server_id, pid, i⟩) := by
      apply List.filter_eq_self.mpr
      intro t ht
      obtain ⟨x, _, rfl⟩ := List.mem_map.mp ht
      simp
    rw [h1, h2, List.nil_append]
  · show ((db.equipment.filter (fun e : EquipmentRow => e.player_id != pid)) ++
      ei.map (fun i => (⟨player.server_id, pid, i⟩ : EquipmentRow))).filter
        (fun e : EquipmentRow => e.player_id != pid) = _
    rw [List.filter_append]
    have h1 : (db.equipment.filter (fun e => e.player_id != pid)).filter
        (fun e => e.player_id != pid) = db.equipment.filter
          (fun e => e.player_id != pid) := by
      rw [List.filter_filter]
      simp only [Bool.and_self]
    have h2 : (ei.map (fun i =>
        (⟨player.server_id, pid, i⟩ : EquipmentRow))).filter
        (fun e => e.player_id != pid) = [] := by
      apply List.filter_eq_nil_iff.mpr
      intro t ht
      obtain ⟨x, _, rfl⟩ := List.mem_map.mp ht
      simp
    rw [h1, h2, List.append_nil]
  · exact ⟨_, _, _, rfl⟩

/-- The store and report of the C1 counterexample: the store already holds
a `player_info` snapshot for player 7 with `fetch_time = 100` (and the
equipment view `[42]` it produced), while the player row's `last_reported`
is 5 — the state two racing ingestions reach when the later-fetched report
commits first. The incoming report has `fetch_time = 10`: newer than
`last_reported`, older than the stored snapshot. -/
def cexDb : Db :=
  ⟨[⟨7, 1, "bob", some 5, some 100, some 200, some 9, some 2, some 10,
     some 5, some 4, false⟩], 8, [], 1, [], 1, [], 1,
   [⟨7, 100, 200, 5, none, 0, none, 0, 9⟩], [⟨1, 7, 42⟩]⟩

/-- The late report of the C1 counterexample (`fetch_time = 10`). -/
def cexReport : Report :=
  ⟨1, "bob", 6, 250, 9, 120, 2, [33], none, none, none, 10, [1, 2]⟩

/-- C1 counterexample: the report is accepted and its snapshot (`fetch_time
= 10`) is inserted although the store already holds a newer snapshot for
the player (`fetch_time = 100`) — the row just inserted is *not* the one
with the maximum `fetch_time` — and yet the pipeline replaces the player's
`Equipment` rows (`[42]` becomes `[33]`). There is no re-select of the
newest snapshot anywhere in src/main.rs:328-361: the claimed guard
("otherwise the transaction commits without touching Equipment") does not
exist in the code. -/
theorem insert_player_recency_guard_counterexample :
    ((insert_player cexDb cexReport 1000 (fun b => b) (fun _ => 0)
        0 0 0).1 = IngestOutcome.accepted) ∧
    (cexDb.player_infos.map (fun pi => (pi.player_id, pi.fetch_time)) =
      [(7, 100)]) ∧
    ((insert_player cexDb cexReport 1000 (fun b => b) (fun _ => 0)
        0 0 0).2.player_infos.map (fun pi => (pi.player_id, pi.fetch_time)) =
      [(7, 100), (7, 10)]) ∧
    (cexDb.equipment = [⟨1, 7, 42⟩]) ∧
    ((insert_player cexDb cexReport 1000 (fun b => b) (fun _ => 0)
        0 0 0).2.equipment = [⟨1, 7, 33⟩]) := by
  decide

/-- C1 (amended): inside the same transaction as the `PlayerInfo` snapshot
insert, for *every* accepted report the pipeline unconditionally
deletes-and-reinserts the player's `Equipment` rows from the deduplicated
ident list — no re-query of the newest snapshot is performed, so the
`Equipment` table reflects the snapshot just ingested (other players'
equipment rows are untouched, and exactly one snapshot row is appended). -/
theorem insert_player_equipment_replaced (db : Db) (player : Report)
    (now : Int) (compress : List Nat → List Nat) (md5 : List Nat → Nat)
    (rd rh rm : Nat)
    (hacc : (insert_player db player now compress md5 rd rh rm).1 =
      IngestOutcome.accepted) :
    ∃ pid,
      ((insert_player db player now compress md5 rd rh rm).2.equipment.filter
          (fun e => e.player_id == pid) =
        (dedup_sorted player.equip_idents).map
          (fun i => ⟨player.server_id, pid, i⟩)) ∧
      ((insert_player db player now compress md5 rd rh
          rm).2.equipment.filter (fun e => e.player_id != pid) =
        db.equipment.filter (fun e => e.player_id != pid)) ∧
      ∃ desc_id guild_id resp_id,
        (insert_player db player now compress md5 rd rh rm).2.player_infos =
          db.player_infos ++
            [⟨pid, clamp_fetch_time player.fetch_time now, player.experience,
              player.level, player.soldier_advice, desc_id, guild_id,
              resp_id, player.honor⟩] := by
  cases hfind : db.players.find? (fun p =>
      p.server_id == player.server_id && p.name == player.name) with
  | some existing =>
    rw [insert_player_eq_of_find_some db player now compress md5 rd rh rm
      existing hfind] at hacc ⊢
    by_cases hstale : is_some_and existing.last_reported (fun a =>
        decide (a ≥ clamp_fetch_time player.fetch_time now)) = true
    · unfold insert_player_existing at hacc
      rw [if_pos hstale] at hacc
      exact absurd hacc (fun h => IngestOutcome.noConfusion h)
    · unfold insert_player_existing
      rw [if_neg hstale]
      exact ⟨existing.player_id, insert_player_tail_spec _ _ _ _ _ _ _⟩
  | none =>
    rw [insert_player_eq_of_find_none db player now compress md5 rd rh rm
      hfind]
    exact ⟨db.next_player_id, insert_player_tail_spec _ _ _ _ _ _ _⟩

/-- C1 (amended) witness: the accepted fresh report on the concrete store
replaces player 7's equipment with its deduplicated ident list. -/
theorem insert_player_equipment_replaced_witness :
    ∃ pid,
      ((insert_player sampleDb freshReport 1000 (fun b => b) (fun _ => 0)
          0 12 30).2.equipment.filter (fun e => e.player_id == pid) =
        (dedup_sorted freshReport.equip_idents).map
          (fun i => ⟨freshReport.server_id, pid, i⟩)) ∧
      ((insert_player sampleDb freshReport 1000 (fun b => b) (fun _ => 0)
          0 12 30).2.equipment.filter (fun e => e.player_id != pid) =
        sampleDb.equipment.filter (fun e => e.player_id != pid)) ∧
      ∃ desc_id guild_id resp_id,
        (insert_player sampleDb freshReport 1000 (fun b => b) (fun _ => 0)
            0 12 30).2.player_infos =
          sampleDb.player_infos ++
            [⟨pid, clamp_fetch_time freshReport.fetch_time 1000,
              freshReport.experience, freshReport.level,
              freshReport.soldier_advice, desc_id, guild_id, resp_id,
              freshReport.honor⟩] :=
  insert_player_equipment_replaced sampleDb freshReport 1000 (fun b => b)
    (fun _ => 0) 0 12 30 (by decide)

/-! ## Blob store (C7) -/

/-- Well-formedness of the `otherplayer_resp` table with respect to the
digest function: every row's key is the digest of its stored bytes (the
code only ever inserts rows this way), and the keys are pairwise distinct
(the database's uniqueness constraint on `hash`). -/
def BlobWF (md5 : List Nat → Nat) (blobs : List BlobRow) : Prop :=
  (∀ b ∈ blobs, b.hash = md5 b.otherplayer_resp) ∧
  blobs.Pairwise (fun a b => a.hash ≠ b.hash)

/-- C7: the blob store compresses the raw payload, digests the compressed
bytes and upserts keyed on that digest (that is `store_blob`, read off
src/main.rs:308-326); storing the same raw content twice returns the same
blob id and leaves the table unchanged the second time; and on a
well-formed table the store never holds two rows with identical content. -/
theorem store_blob_dedup (compress : List Nat → List Nat)
    (md5 : List Nat → Nat) (blobs : List BlobRow) (next_id : Nat)
    (raw : List Nat) (hwf : BlobWF md5 blobs) :
    ((store_blob compress md5
        (store_blob compress md5 blobs next_id raw).2.1
        (store_blob compress md5 blobs next_id raw).2.2 raw).1 =
      (store_blob compress md5 blobs next_id raw).1) ∧
    ((store_blob compress md5
        (store_blob compress md5 blobs next_id raw).2.1
        (store_blob compress md5 blobs next_id raw).2.2 raw).2.1 =
      (store_blob compress md5 blobs next_id raw).2.1) ∧
    BlobWF md5 (store_blob compress md5 blobs next_id raw).2.1 ∧
    (∀ b1 ∈ (store_blob compress md5 blobs next_id raw).2.1,
      ∀ b2 ∈ (store_blob compress md5 blobs next_id raw).2.1,
        b1.otherplayer_resp = b2.otherplayer_resp → b1 = b2) := by
  obtain ⟨hkey, hdist⟩ := hwf
  have hsym : Symmetric (fun a b : BlobRow => a.hash ≠ b.hash) :=
    fun _ _ h => h.symm
  have hsb : ∀ (bl : List BlobRow) (nid : Nat),
      store_blob compress md5 bl nid raw =
        upsert_blob bl nid (compress raw) (md5 (compress raw)) :=
    fun _ _ => rfl
  have hnodup : ∀ bl : List BlobRow, BlobWF md5 bl →
      ∀ b1 ∈ bl, ∀ b2 ∈ bl, b1.otherplayer_resp = b2.otherplayer_resp →
        b1 = b2 := by
    intro bl hwf b1 hb1 b2 hb2 hresp
    by_contra hne
    exact (List.Pairwise.forall hsym hwf.2) hb1 hb2 hne
      (by rw [hwf.1 b1 hb1, hwf.1 b2 hb2, hresp])
  cases hfound : blobs.find? (fun b => b.hash == md5 (compress raw)) with
  | some b =>
    have h1 : upsert_blob blobs next_id (compress raw) (md5 (compress raw)) =
        (b.otherplayer_resp_id, blobs, next_id) := by
      unfold upsert_blob
      rw [hfound]
    simp only [hsb, h1]
    exact ⟨trivial, trivial, ⟨hkey, hdist⟩, hnodup blobs ⟨hkey, hdist⟩⟩
  | none =>
    have hnotin : ∀ x ∈ blobs, ¬ (x.hash == md5 (compress raw)) = true :=
      List.find?_eq_none.mp hfound
    have h1 : upsert_blob blobs next_id (compress raw) (md5 (compress raw)) =
        (next_id,
         blobs ++ [(⟨next_id, compress raw, md5 (compress raw)⟩ : BlobRow)],
         next_id + 1) := by
      unfold upsert_blob
      rw [hfound]
    have hfound2 : (blobs ++
        [(⟨next_id, compress raw, md5 (compress raw)⟩ : BlobRow)]).find?
          (fun x => x.hash == md5 (compress raw)) =
        some (⟨next_id, compress raw, md5 (compress raw)⟩ : BlobRow) := by
      rw [List.find?_append, hfound]
      simp
    have h2 : upsert_blob
        (blobs ++ [(⟨next_id, compress raw, md5 (compress raw)⟩ : BlobRow)])
        (next_id + 1) (compress raw) (md5 (compress raw)) =
        (next_id,
         blobs ++ [(⟨next_id, compress raw, md5 (compress raw)⟩ : BlobRow)],
         next_id + 1) := by
      unfold upsert_blob
      rw [hfound2]
    have hwf' : BlobWF md5 (blobs ++
        [(⟨next_id, compress raw, md5 (compress raw)⟩ : BlobRow)]) := by
      constructor
      · intro x hx
        rcases List.mem_append.mp hx with h | h
        · exact hkey x h
        · rw [List.mem_singleton.mp h]
      · rw [List.pairwise_append]
        refine ⟨hdist, List.pairwise_singleton _ _, ?_⟩
        intro a ha x hx
        rw [List.mem_singleton.mp hx]
        intro hcontra
        exact hnotin a ha (by rw [hcontra]; exact beq_self_eq_true _)
    simp only [hsb, h1, h2]
    exact ⟨trivial, trivial, hwf', hnodup _ hwf'⟩

/-- C7 witness: storing a concrete payload twice into the empty table
yields the same id (1) and a single row. -/
theorem store_blob_dedup_witness :
    ((store_blob (fun b => b) (fun l => l.foldl (fun a n => a * 1000 + n) 7)
        (store_blob (fun b => b) (fun l => l.foldl (fun a n => a * 1000 + n) 7)
          [] 1 [5, 6]).2.1
        (store_blob (fun b => b) (fun l => l.foldl (fun a n => a * 1000 + n) 7)
          [] 1 [5, 6]).2.2 [5, 6]).1 =
      (store_blob (fun b => b) (fun l => l.foldl (fun a n => a * 1000 + n) 7)
        [] 1 [5, 6]).1) ∧
    ((store_blob (fun b => b) (fun l => l.foldl (fun a n => a * 1000 + n) 7)
        (store_blob (fun b => b) (fun l => l.foldl (fun a n => a * 1000 + n) 7)
          [] 1 [5, 6]).2.1
        (store_blob (fun b => b) (fun l => l.foldl (fun a n => a * 1000 + n) 7)
          [] 1 [5, 6]).2.2 [5, 6]).2.1 =
      (store_blob (fun b => b) (fun l => l.foldl (fun a n => a * 1000 + n) 7)
        [] 1 [5, 6]).2.1) := by
  have h := store_blob_dedup (fun b => b)
    (fun l => l.foldl (fun a n => a * 1000 + n) 7) [] 1 [5, 6]
    (by unfold BlobWF; exact ⟨fun _ hb => (nomatch hb), List.Pairwise.nil⟩)
  exact ⟨h.1, h.2.1⟩

/-! ## HoF report ingestion (`report_hof_pages`) -/

/-- `sf_api::gamestate::social::HallOfFamePlayer`, reduced to the fields
the handler stores (name and level). -/
structure HofPlayer where
  name : String
  level : Int
deriving DecidableEq

/-- The empty-slot sentinel suffix of src/main.rs:526. -/
def empty_fame_suffix : String := ",,,0,0,0,"

/-- `player.ends_with(",,,0,0,0,")` (src/main.rs:526), on the character
list (the library `String.endsWith` is not kernel-reducible; a string ends
with a suffix iff its character list does). -/
def is_empty_fame_entry (s : String) : Bool :=
  empty_fame_suffix.toList.isSuffixOf s.toList

/-- Rust `str::split(sep)` on a character list: `split_chars sep cs` are
the maximal groups between separator occurrences (`[""]` for the empty
input, like Rust). -/
def split_chars (sep : Char) : List Char → List (List Char)
  | [] => [[]]
  | c :: rest =>
    if c == sep then [] :: split_chars sep rest
    else
      match split_chars sep rest with
      | [] => [[c]]
      | g :: gs => (c :: g) :: gs

/-- `info.as_str().trim_matches(';')` (src/main.rs:524): strip leading and
trailing semicolons. -/
def trim_semicolons (s : String) : String :=
  String.mk (((s.toList.dropWhile (fun c => c == ';')).reverse.dropWhile
    (fun c => c == ';')).reverse)

/-- `info.as_str().trim_matches(';').split(';')` (src/main.rs:524). -/
def split_fame_entries (info : String) : List String :=
  (split_chars ';' (trim_semicolons info).toList).map (fun g => String.mk g)

/-- The entry loop of `report_hof_pages` (src/main.rs:524-535): stop at the
first empty-slot sentinel, push parsed entries, log and skip malformed
ones. `parse` is `HallOfFamePlayer::parse` of the external `sf_api`
crate. -/
def parse_fame_entries (parse : String → Except String HofPlayer) :
    List String → List HofPlayer
  | [] => []
  | e :: rest =>
    if is_empty_fame_entry e then []
    else
      match parse e with
      | Except.ok x => x :: parse_fame_entries parse rest
      | Except.error _ => parse_fame_entries parse rest

/-- One row of the multi-row `INSERT INTO player (server_id, name, level)
... ON CONFLICT DO NOTHING` (src/main.rs:552-563): skipped when a row for
the unique key (server_id, name) already exists, otherwise inserted with
only server id, name and level set — the other columns take their schema
NULL/defaults (the migrations are not in the crate; in particular
`last_reported` is NULL for a HoF-discovered player). -/
def insert_ignore_player (players : List PlayerRow) (next_id : Nat)
    (server_id : Nat) (hp : HofPlayer) : List PlayerRow × Nat :=
  if players.any (fun p => p.server_id == server_id && p.name == hp.name) then
    (players, next_id)
  else
    (players ++ [⟨next_id, server_id, hp.name, some hp.level, none, none,
      none, none, none, none, none, false⟩], next_id + 1)

/-- The multi-row insert of `report_hof_pages`: Postgres processes the
`VALUES` rows in order, each under the `ON CONFLICT DO NOTHING`. -/
def insert_players_ignore (players : List PlayerRow) (next_id : Nat)
    (server_id : Nat) : List HofPlayer → List PlayerRow × Nat
  | [] => (players, next_id)
  | hp :: rest =>
    insert_players_ignore
      (insert_ignore_player players next_id server_id hp).1
      (insert_ignore_player players next_id server_id hp).2 server_id rest

/-- One page of `report_hof_pages` (src/main.rs:521-565), in its own
transaction: parse the entries, delete the page's `todo_hof_page` row, and
(when any entry parsed) bulk-insert the players with `ON CONFLICT DO
NOTHING`. -/
def report_hof_page (players : List PlayerRow) (next_player_id : Nat)
    (todo : List TodoHofPageRow) (parse : String → Except String HofPlayer)
    (server_id : Nat) (page : Int) (info : String) :
    List PlayerRow × Nat × List TodoHofPageRow :=
  let parsed := parse_fame_entries parse (split_fame_entries info)
  let todo' := todo.filter (fun t =>
    !(t.server_id == server_id && t.idx == page))
  if parsed.isEmpty then (players, next_player_id, todo')
  else
    let r := insert_players_ignore players next_player_id server_id parsed
    (r.1, r.2, todo')

/-- `report_hof_pages` (src/main.rs:515-567): the pages of the request, one
transaction each. -/
def report_hof_pages (players : List PlayerRow) (next_player_id : Nat)
    (todo : List TodoHofPageRow) (parse : String → Except String HofPlayer)
    (server_id : Nat) (pages : List (Int × String)) :
    List PlayerRow × Nat × List TodoHofPageRow :=
  match pages with
  | [] => (players, next_player_id, todo)
  | (page, info) :: rest =>
    let r := report_hof_page players next_player_id todo parse server_id
      page info
    report_hof_pages r.1 r.2.1 r.2.2 parse server_id rest

/-- The bulk insert only appends rows, and every appended row is one of the
parsed players with only server id, name and level set. -/
theorem insert_fold_appends (server_id : Nat) (hps : List HofPlayer) :
    ∀ (players : List PlayerRow) (next_id : Nat),
      ∃ newRows,
        (insert_players_ignore players next_id server_id hps).1 =
          players ++ newRows ∧
        ∀ p ∈ newRows, ∃ hp ∈ hps, p =
          ⟨p.player_id, server_id, hp.name, some hp.level, none, none, none,
           none, none, none, none, false⟩ := by
  induction hps with
  | nil =>
    intro players next_id
    exact ⟨[], by simp [insert_players_ignore], by intro p hp; cases hp⟩
  | cons hp rest ih =>
    intro players next_id
    by_cases hc : players.any (fun p =>
        p.server_id == server_id && p.name == hp.name) = true
    · have hstep : insert_ignore_player players next_id server_id hp =
          (players, next_id) := by
        unfold insert_ignore_player
        rw [if_pos hc]
      have hred : insert_players_ignore players next_id server_id
          (hp :: rest) = insert_players_ignore players next_id server_id
            rest := by
        show insert_players_ignore
          (insert_ignore_player players next_id server_id hp).1
          (insert_ignore_player players next_id server_id hp).2 server_id
          rest = _
        rw [hstep]
      rw [hred]
      obtain ⟨newRows, heq, hprop⟩ := ih players next_id
      refine ⟨newRows, heq, ?_⟩
      intro p hpmem
      obtain ⟨hp2, hmem2, hrow⟩ := hprop p hpmem
      exact ⟨hp2, List.mem_cons_of_mem _ hmem2, hrow⟩
    · have hstep : insert_ignore_player players next_id server_id hp =
          (players ++ [⟨next_id, server_id, hp.name, some hp.level, none,
            none, none, none, none, none, none, false⟩], next_id + 1) := by
        unfold insert_ignore_player
        rw [if_neg hc]
      have hred : insert_players_ignore players next_id server_id
          (hp :: rest) = insert_players_ignore
            (players ++ [⟨next_id, server_id, hp.name, some hp.level, none,
              none, none, none, none, none, none, false⟩]) (next_id + 1)
            server_id rest := by
        show insert_players_ignore
          (insert_ignore_player players next_id server_id hp).1
          (insert_ignore_player players next_id server_id hp).2 server_id
          rest = _
        rw [hstep]
      rw [hred]
      obtain ⟨newRows, heq, hprop⟩ := ih (players ++
        [⟨next_id, server_id, hp.name, some hp.level, none, none, none,
          none, none, none, none, false⟩]) (next_id + 1)
      refine ⟨⟨next_id, server_id, hp.name, some hp.level, none, none, none,
        none, none, none, none, false⟩ :: newRows, ?_, ?_⟩
      · rw [heq, List.append_assoc, List.singleton_append]
      · intro p hpmem
        rcases List.mem_cons.mp hpmem with h | h
        · exact ⟨hp, List.mem_cons_self _ _, by rw [h]⟩
        · obtain ⟨hp2, hmem2, hrow⟩ := hprop p h
          exact ⟨hp2, List.mem_cons_of_mem _ hmem2, hrow⟩

/-- C8: per reported page, entry parsing stops at the first empty-slot
sentinel and skips malformed entries (it equals `takeWhile (not sentinel)`
filtered through the successful parses); the insert is append-only with
`ON CONFLICT DO NOTHING`, so an existing player row is never updated (the
old table is a prefix of the new one and every new row carries only
server id, name and level of a parsed entry); and the page's
`TodoHofPage` row is deleted whether or not any players were parsed. -/
theorem report_hof_page_spec (players : List PlayerRow)
    (next_player_id : Nat) (todo : List TodoHofPageRow)
    (parse : String → Except String HofPlayer) (server_id : Nat)
    (page : Int) (info : String) :
    (parse_fame_entries parse (split_fame_entries info) =
      ((split_fame_entries info).takeWhile
        (fun e => !is_empty_fame_entry e)).filterMap
          (fun e => (parse e).toOption)) ∧
    (∃ newRows,
      (report_hof_page players next_player_id todo parse server_id page
        info).1 = players ++ newRows ∧
      ∀ p ∈ newRows, ∃ hp ∈ parse_fame_entries parse
          (split_fame_entries info), p =
        ⟨p.player_id, server_id, hp.name, some hp.level, none, none, none,
         none, none, none, none, false⟩) ∧
    ((report_hof_page players next_player_id todo parse server_id page
        info).2.2 = todo.filter (fun t =>
          !(t.server_id == server_id && t.idx == page))) ∧
    (∀ t ∈ (report_hof_page players next_player_id todo parse server_id
        page info).2.2, ¬ (t.server_id = server_id ∧ t.idx = page)) := by
  refine ⟨?_, ?_, ?_, ?_⟩
  · generalize split_fame_entries info = entries
    induction entries with
    | nil => rfl
    | cons e rest ih =>
      by_cases hs : is_empty_fame_entry e = true
      · rw [parse_fame_entries, if_pos hs, List.takeWhile_cons]
        simp [hs]
      · rw [parse_fame_entries, if_neg hs, List.takeWhile_cons]
        simp only [hs, Bool.not_false, if_true]
        rw [List.filterMap_cons]
        cases hp : parse e with
        | ok x => simp [Except.toOption, ih]
        | error err => simp [Except.toOption, ih]
  · unfold report_hof_page
    by_cases hemp : (parse_fame_entries parse
        (split_fame_entries info)).isEmpty = true
    · rw [if_pos hemp]
      exact ⟨[], by simp, by intro p hp; cases hp⟩
    · rw [if_neg hemp]
      obtain ⟨newRows, heq, hprop⟩ := insert_fold_appends server_id
        (parse_fame_entries parse (split_fame_entries info)) players
        next_player_id
      exact ⟨newRows, heq, hprop⟩
  · unfold report_hof_page
    by_cases hemp : (parse_fame_entries parse
        (split_fame_entries info)).isEmpty = true
    · rw [if_pos hemp]
    · rw [if_neg hemp]
  · intro t ht
    have ht' : t ∈ todo.filter (fun t =>
        !(t.server_id == server_id && t.idx == page)) := by
      have h3 : (report_hof_page players next_player_id todo parse server_id
          page info).2.2 = todo.filter (fun t =>
            !(t.server_id == server_id && t.idx == page)) := by
        unfold report_hof_page
        by_cases hemp : (parse_fame_entries parse
            (split_fame_entries info)).isEmpty = true
        · rw [if_pos hemp]
        · rw [if_neg hemp]
      rw [h3] at ht
      exact ht
    have := (List.mem_filter.mp ht').2
    simp only [Bool.not_eq_true', Bool.and_eq_false_iff] at this
    rintro ⟨h1, h2⟩
    rcases this with h | h
    · exact absurd h1 (by simpa using h)
    · exact absurd h2 (by simpa using h)

/-- C8 witness: a concrete page with two good entries, one malformed entry
and an empty-slot suffix: the parse stops at the sentinel, the two players
are appended, and the page-5 lease row is deleted while other rows stay. -/
theorem report_hof_page_spec_witness :
    ((report_hof_page [] 1 [⟨1, 5, 0⟩, ⟨1, 6, 0⟩]
        (fun s => if s == "bad" then Except.error s
          else Except.ok ⟨s, 3⟩) 1 5 "a;bad;b;x,,,0,0,0,;c").2.2 =
      [⟨1, 6, 0⟩]) ∧
    ((report_hof_page [] 1 [⟨1, 5, 0⟩, ⟨1, 6, 0⟩]
        (fun s => if s == "bad" then Except.error s
          else Except.ok ⟨s, 3⟩) 1 5 "a;bad;b;x,,,0,0,0,;c").1 =
      [⟨1, 1, "a", some 3, none, none, none, none, none, none, none, false⟩,
       ⟨2, 1, "b", some 3, none, none, none, none, none, none, none,
        false⟩]) ∧
    (parse_fame_entries (fun s => if s == "bad" then Except.error s
        else Except.ok ⟨s, 3⟩)
      (split_fame_entries "a;bad;b;x,,,0,0,0,;c") =
      [⟨"a", 3⟩, ⟨"b", 3⟩]) := by
  have h := report_hof_page_spec [] 1 [⟨1, 5, 0⟩, ⟨1, 6, 0⟩]
    (fun s => if s == "bad" then Except.error s else Except.ok ⟨s, 3⟩)
    1 5 "a;bad;b;x,,,0,0,0,;c"
  refine ⟨?_, by decide, by decide⟩
  rw [h.2.2.1]
  decide

/-- A store holding one player row as HoF discovery creates it: only
server id, name and level set, `last_reported` NULL. -/
def discoveredDb : Db :=
  ⟨[⟨9, 1, "carol", some 3, none, none, none, none, none, none, none,
     false⟩], 10, [], 1, [], 1, [], 1, [], []⟩

/-- A very old report (`fetch_time` far in the past) for the discovered
player. -/
def ancientReport : Report :=
  ⟨1, "carol", 4, 90, 2, 50, 1, [7], none, none, none, -5000, [3]⟩

/-- C10: a player row created by HoF discovery carries `last_reported =
NULL` (the bulk insert names only server id, name and level), and the
staleness check of `insert_player` only discards when a `last_reported`
value is present and `≥ fetch_time` — `is_some_and` on `none` is false —
so the first full report for such a row is accepted no matter how old its
`fetch_time` is. -/
theorem hof_discovered_first_report_accepted (players : List PlayerRow)
    (next_player_id : Nat) (todo : List TodoHofPageRow)
    (parse : String → Except String HofPlayer) (server_id : Nat)
    (page : Int) (info : String) (db : Db) (player : Report) (now : Int)
    (compress : List Nat → List Nat) (md5 : List Nat → Nat)
    (rd rh rm : Nat) (existing : PlayerRow)
    (hfind : db.players.find? (fun p =>
      p.server_id == player.server_id && p.name == player.name) =
        some existing)
    (hnull : existing.last_reported = none) :
    (∃ newRows,
      (report_hof_page players next_player_id todo parse server_id page
        info).1 = players ++ newRows ∧
      ∀ p ∈ newRows, p.last_reported = none ∧ p.next_report_attempt = none ∧
        p.attributes = none) ∧
    (insert_player db player now compress md5 rd rh rm).1 =
      IngestOutcome.accepted := by
  constructor
  · unfold report_hof_page
    by_cases hemp : (parse_fame_entries parse
        (split_fame_entries info)).isEmpty = true
    · rw [if_pos hemp]
      exact ⟨[], by simp, fun p hp => (nomatch hp)⟩
    · rw [if_neg hemp]
      obtain ⟨newRows, heq, hprop⟩ := insert_fold_appends server_id
        (parse_fame_entries parse (split_fame_entries info)) players
        next_player_id
      refine ⟨newRows, heq, ?_⟩
      intro p hp
      obtain ⟨hp2, _, hrow⟩ := hprop p hp
      rw [hrow]
      exact ⟨rfl, rfl, rfl⟩
  · rw [insert_player_eq_of_find_some db player now compress md5 rd rh rm
      existing hfind]
    unfold insert_player_existing
    rw [if_neg (by rw [hnull]; simp [is_some_and])]

/-- C10 witness: the discovered row (`last_reported` NULL) accepts a report
dated far in the past, and a concrete HoF page inserts only rows with
`last_reported` NULL. -/
theorem hof_discovered_first_report_accepted_witness :
    (∃ newRows,
      (report_hof_page [] 1 [] (fun s => Except.ok ⟨s, 3⟩) 1 5 "a;b").1 =
        [] ++ newRows ∧
      ∀ p ∈ newRows, p.last_reported = none ∧ p.next_report_attempt = none ∧
        p.attributes = none) ∧
    (insert_player discoveredDb ancientReport 1000 (fun b => b) (fun _ => 0)
      0 0 0).1 = IngestOutcome.accepted :=
  hof_discovered_first_report_accepted [] 1 [] (fun s => Except.ok ⟨s, 3⟩)
    1 5 "a;b" discoveredDb ancientReport 1000 (fun b => b) (fun _ => 0)
    0 0 0 ⟨9, 1, "carol", some 3, none, none, none, none, none, none, none,
      false⟩ (by decide) rfl

end Mfbot
